import Mathlib

/-!
Verification of the simple-esc entity-component store (src/lib.rs).

The Rust code stores, behind a type-erased `Vec<Box<dyn ComponentVec>>`, one
`Components<T>` column per concrete component type `T`, routed by a dynamic
type-identity check (`downcast`).  The embedding erases the Rust type `T` to a
numeric type identifier `tid : Nat` (Rust `TypeId` values are abstract tags compared
only for equality) and stores all payload values in a single type parameter
`Val`; a column is valid for exactly one `tid`, mirroring the fact that a
`Components<T>` downcasts successfully for exactly one `T`.  Panics (index out
of bounds, `unwrap` on `None`) are modelled by `Option`-valued results where
`none` means the operation faults.
-/

namespace SimpleEsc

/-- Rust `struct Entity { id: usize, gen: u32 }`; `==` compares both fields. -/
structure Entity where
  id : Nat
  gen : Nat
deriving DecidableEq, Repr

/-- Rust `struct Components<T> { components: RefCell<Vec<Option<T>>> }`, with
the element type `T` erased to the tag `tid`. -/
structure Components (Val : Type) where
  tid : Nat
  components : List (Option Val)
deriving DecidableEq, Repr

/-- Rust `Components::new(size)`: a column of `size` empty slots. -/
def Components.new {Val : Type} (tid : Nat) (size : Nat) : Components Val :=
  { tid := tid, components := List.replicate size none }

/-- Rust `Components::set(idx, component)`:
`self.components.get_mut()[idx] = Some(component)`.
Indexing panics when `idx` is out of bounds, modelled by `none`. -/
def Components.set {Val : Type} (c : Components Val) (idx : Nat) (component : Val) :
    Option (Components Val) :=
  if idx < c.components.length then
    some { c with components := c.components.set idx (some component) }
  else
    none

/-- Rust `struct RefComponent<T> { refer: Ref<Vec<Option<T>>>, idx: usize }`:
the shared accessor holds the borrowed column contents and the slot index. -/
structure RefComponent (Val : Type) where
  refer : List (Option Val)
  idx : Nat
deriving DecidableEq, Repr

/-- Rust `RefComponent::deref`: `self.refer.get(self.idx).unwrap()`.
The `unwrap` panics when `idx` is out of bounds, modelled by `none`. -/
def RefComponent.deref {Val : Type} (r : RefComponent Val) : Option (Option Val) :=
  r.refer[r.idx]?

/-- Rust `struct RefMutComponent<T> { r: RefMut<Vec<Option<T>>>, idx: usize }`:
the exclusive accessor. -/
structure RefMutComponent (Val : Type) where
  r : List (Option Val)
  idx : Nat
deriving DecidableEq, Repr

/-- The `Deref` impl of Rust `RefMutComponent`: `self.r.get(self.idx).unwrap()`. -/
def RefMutComponent.deref {Val : Type} (m : RefMutComponent Val) : Option (Option Val) :=
  m.r[m.idx]?

/-- The `DerefMut` impl of Rust `RefMutComponent`: `self.r.get_mut(self.idx).unwrap()`;
`get_mut` faults in exactly the same cases as `get`. -/
def RefMutComponent.deref_mut {Val : Type} (m : RefMutComponent Val) : Option (Option Val) :=
  m.r[m.idx]?

/-- Rust `Components::get(idx)`: borrows the vector and packages it with the
index into a shared accessor. -/
def Components.get {Val : Type} (c : Components Val) (idx : Nat) : RefComponent Val :=
  { refer := c.components, idx := idx }

/-- Rust `Components::get_mut(idx)`: exclusive counterpart of `get`. -/
def Components.get_mut {Val : Type} (c : Components Val) (idx : Nat) : RefMutComponent Val :=
  { r := c.components, idx := idx }

/-- Rust `struct World`: slot counter, type-erased columns, slot table and the
free list. -/
structure World (Val : Type) where
  entities_count : Nat
  component_vecs : List (Components Val)
  entities : List Entity
  free_entities : List Entity
deriving DecidableEq, Repr

/-- Rust `World::new()`: everything empty. -/
def World.new (Val : Type) : World Val :=
  { entities_count := 0, component_vecs := [], entities := [], free_entities := [] }

/-- Rust `Vec::pop`: removes and returns the last element, if any. -/
def vecPop {α : Type} (l : List α) : Option (α × List α) :=
  match l.getLast? with
  | some x => some (x, l.dropLast)
  | none => none

/-- Rust `World::new_entity()`: pop a recycled entity from the free list if
one exists, otherwise allocate slot `entities_count` with generation 0,
append one empty slot to every column, and append the entity to the slot
table. -/
def World.new_entity {Val : Type} (w : World Val) : Entity × World Val :=
  match vecPop w.free_entities with
  | some (entity, rest) =>
      (entity, { w with free_entities := rest, entities := w.entities.set entity.id entity })
  | none =>
      let entity : Entity := { id := w.entities_count, gen := 0 }
      (entity,
        { w with
          entities_count := w.entities_count + 1,
          component_vecs := w.component_vecs.map
            (fun c => { c with components := c.components ++ [none] }),
          entities := w.entities ++ [entity] })

/-- Outcome of the downcast-and-set loop in `add_component_to_entity`:
either some column matched and was updated (`ok`), or the `set` on the matching
column faulted (`panic`), or no column matched (`notFound`). -/
inductive SetResult (Val : Type) where
  | panic
  | notFound
  | ok (vecs : List (Components Val))
deriving DecidableEq, Repr

/-- The `for component_vec in self.component_vecs.iter_mut()` loop of Rust
`World::add_component_to_entity`: `downcast_mut::<Components<T>>` succeeds
exactly on the column tagged `tid`; on the first success, `set` is called and
the loop returns. -/
def setComponentInVecs {Val : Type} (tid : Nat) (idx : Nat) (component : Val) :
    List (Components Val) → SetResult Val
  | [] => .notFound
  | c :: rest =>
    if c.tid = tid then
      match c.set idx component with
      | some c' => .ok (c' :: rest)
      | none => .panic
    else
      match setComponentInVecs tid idx component rest with
      | .ok rest' => .ok (c :: rest')
      | .panic => .panic
      | .notFound => .notFound

/-- Rust `World::add_component_to_entity(entity, component)`: write into the
first column whose element type matches; if none matches, create a fresh
column sized `entities_count`, set the value and push the column.  `none`
models the index-out-of-bounds panic inside `Components::set`. -/
def World.add_component_to_entity {Val : Type} (w : World Val) (tid : Nat) (entity : Entity)
    (component : Val) : Option (World Val) :=
  match setComponentInVecs tid entity.id component w.component_vecs with
  | .ok vecs => some { w with component_vecs := vecs }
  | .panic => none
  | .notFound =>
    match (Components.new tid w.entities_count : Components Val).set entity.id component with
    | some c => some { w with component_vecs := w.component_vecs ++ [c] }
    | none => none

/-- The `for components in self.component_vecs.iter()` loop of Rust
`World::get_component`: return a shared accessor into the first column whose
element type matches, `none` when no column matches. -/
def getComponentFromVecs {Val : Type} (tid : Nat) (idx : Nat) :
    List (Components Val) → Option (RefComponent Val)
  | [] => none
  | c :: rest =>
    if c.tid = tid then some (c.get idx)
    else getComponentFromVecs tid idx rest

/-- Rust `World::get_component(entity)`: validate `entity` against the slot
table (`self.entities.get(entity.id)` must yield an entity equal to it), then
scan the columns for the requested type. -/
def World.get_component {Val : Type} (w : World Val) (tid : Nat) (entity : Entity) :
    Option (RefComponent Val) :=
  match w.entities[entity.id]? with
  | some ent => if ent = entity then getComponentFromVecs tid entity.id w.component_vecs else none
  | none => none

/-- The column-scan loop of Rust `World::get_component_mut`. -/
def getComponentMutFromVecs {Val : Type} (tid : Nat) (idx : Nat) :
    List (Components Val) → Option (RefMutComponent Val)
  | [] => none
  | c :: rest =>
    if c.tid = tid then some (c.get_mut idx)
    else getComponentMutFromVecs tid idx rest

/-- Rust `World::get_component_mut(entity)`: same validation and routing as
`get_component`, returning an exclusive accessor. -/
def World.get_component_mut {Val : Type} (w : World Val) (tid : Nat) (entity : Entity) :
    Option (RefMutComponent Val) :=
  match w.entities[entity.id]? with
  | some ent =>
      if ent = entity then getComponentMutFromVecs tid entity.id w.component_vecs else none
  | none => none

/-- Rust `RefCell` borrow flag: unborrowed, borrowed by `n + 1` readers, or
exclusively borrowed by one writer. -/
inductive BorrowFlag where
  | unused
  | reading (n : Nat)
  | writing
deriving DecidableEq, Repr

/-- A column together with the borrow flag of its `RefCell`, for reasoning
about accessor lifetimes (`Components.get` runs `borrow()`, `Components.get_mut`
runs `borrow_mut()`, and dropping an accessor releases the flag). -/
structure ComponentsCell (Val : Type) where
  cell : Components Val
  flag : BorrowFlag
deriving DecidableEq, Repr

/-- Rust `RefCell::borrow` as performed by `Components::get`: panics (`none`)
while a writer is live, otherwise hands out a shared accessor and counts one
more reader. -/
def ComponentsCell.borrow {Val : Type} (c : ComponentsCell Val) (idx : Nat) :
    Option (RefComponent Val × ComponentsCell Val) :=
  match c.flag with
  | .writing => none
  | .unused => some (c.cell.get idx, { c with flag := .reading 0 })
  | .reading n => some (c.cell.get idx, { c with flag := .reading (n + 1) })

/-- Rust `RefCell::borrow_mut` as performed by `Components::get_mut`: panics
(`none`) unless the cell is entirely unborrowed. -/
def ComponentsCell.borrow_mut {Val : Type} (c : ComponentsCell Val) (idx : Nat) :
    Option (RefMutComponent Val × ComponentsCell Val) :=
  match c.flag with
  | .unused => some (c.cell.get_mut idx, { c with flag := .writing })
  | .reading _ => none
  | .writing => none

/-- The states of `World` reachable through the public operations: the fresh
world, entity creation, and successful component attachment (a panicking
attachment aborts and yields no state). -/
inductive Reachable {Val : Type} : World Val → Prop where
  | init : Reachable (World.new Val)
  | create {w : World Val} : Reachable w → Reachable (w.new_entity).2
  | attach {w w' : World Val} {tid : Nat} {e : Entity} {v : Val} :
      Reachable w → w.add_component_to_entity tid e v = some w' → Reachable w'

/-- The state invariant maintained by the public operations: the slot table
has length `entities_count`, every column has length `entities_count`, the
free list is empty, and no two columns share a type tag. -/
def Inv {Val : Type} (w : World Val) : Prop :=
  w.entities.length = w.entities_count ∧
  (∀ c ∈ w.component_vecs, c.components.length = w.entities_count) ∧
  w.free_entities = [] ∧
  (w.component_vecs.map Components.tid).Nodup

/-- The world produced by the `test_world` scenario of src/lib.rs: create
`e1 = (0,0)`, attach `Health(10)` (tag 0) to `e1`, create `e2 = (1,0)`,
attach `Health(20)` and `Speed(100)` (tag 1) to `e2`. -/
def exampleWorld : World Int :=
  { entities_count := 2,
    component_vecs :=
      [{ tid := 0, components := [some 10, some 20] },
       { tid := 1, components := [none, some 100] }],
    entities := [⟨0, 0⟩, ⟨1, 0⟩],
    free_entities := [] }

/-- Intermediate state of the `test_world` scenario: after creating `e1`. -/
def wB : World Int :=
  { entities_count := 1, component_vecs := [], entities := [⟨0, 0⟩], free_entities := [] }

/-- Intermediate state: after attaching `Health(10)` (tag 0) to `e1`. -/
def wC : World Int :=
  { entities_count := 1, component_vecs := [{ tid := 0, components := [some 10] }], entities := [⟨0, 0⟩], free_entities := [] }

/-- Intermediate state: after creating `e2`. -/
def wD : World Int :=
  { entities_count := 2, component_vecs := [{ tid := 0, components := [some 10, none] }], entities := [⟨0, 0⟩, ⟨1, 0⟩], free_entities := [] }

/-- Intermediate state: after attaching `Health(20)` to `e2`. -/
def wE : World Int :=
  { entities_count := 2, component_vecs := [{ tid := 0, components := [some 10, some 20] }], entities := [⟨0, 0⟩, ⟨1, 0⟩], free_entities := [] }

/-! ### Helper lemmas about `Components.set` and the column-scan loops -/

theorem Components.set_isSome {Val : Type} {c : Components Val} {idx : Nat} {v : Val} :
    (c.set idx v).isSome ↔ idx < c.components.length := by
  by_cases hlt : idx < c.components.length <;> simp [Components.set, hlt]

theorem Components.set_eq_some {Val : Type} {c c' : Components Val} {idx : Nat} {v : Val}
    (h : c.set idx v = some c') :
    idx < c.components.length ∧
    c' = { c with components := c.components.set idx (some v) } := by
  by_cases hlt : idx < c.components.length
  · simp only [Components.set, if_pos hlt] at h
    exact ⟨hlt, (Option.some.inj h).symm⟩
  · simp [Components.set, hlt] at h

theorem setComponentInVecs_notFound_iff {Val : Type} {tid idx : Nat} {v : Val}
    {vecs : List (Components Val)} :
    setComponentInVecs tid idx v vecs = .notFound ↔ ∀ c ∈ vecs, c.tid ≠ tid := by
  induction vecs with
  | nil => simp [setComponentInVecs]
  | cons c rest ih =>
    by_cases htid : c.tid = tid
    · cases hset : c.set idx v with
      | some c' => simp [setComponentInVecs, htid, hset]
      | none => simp [setComponentInVecs, htid, hset]
    · cases hrec : setComponentInVecs tid idx v rest with
      | ok rest' => simp [setComponentInVecs, htid, hrec, ← ih]
      | panic => simp [setComponentInVecs, htid, hrec, ← ih]
      | notFound =>
        simp only [setComponentInVecs, if_neg htid, hrec, true_iff]
        intro a ha
        rcases List.mem_cons.mp ha with h | h
        · rw [h]; exact htid
        · exact ih.mp hrec a h

theorem setComponentInVecs_ok_shape {Val : Type} {tid idx : Nat} {v : Val}
    {vecs vecs' : List (Components Val)}
    (h : setComponentInVecs tid idx v vecs = .ok vecs') :
    vecs'.map Components.tid = vecs.map Components.tid ∧
    vecs'.map (fun c => c.components.length) = vecs.map (fun c => c.components.length) := by
  induction vecs generalizing vecs' with
  | nil => simp [setComponentInVecs] at h
  | cons c rest ih =>
    by_cases htid : c.tid = tid
    · cases hset : c.set idx v with
      | some c' =>
        simp only [setComponentInVecs, if_pos htid, hset] at h
        obtain ⟨hlt, hc'⟩ := Components.set_eq_some hset
        cases h
        subst hc'
        simp
      | none => simp [setComponentInVecs, htid, hset] at h
    · cases hrec : setComponentInVecs tid idx v rest with
      | ok rest' =>
        simp only [setComponentInVecs, if_neg htid, hrec] at h
        cases h
        obtain ⟨h1, h2⟩ := ih hrec
        simp [h1, h2]
      | panic => simp [setComponentInVecs, htid, hrec] at h
      | notFound => simp [setComponentInVecs, htid, hrec] at h

theorem setComponentInVecs_ok_lt {Val : Type} {tid idx n : Nat} {v : Val}
    {vecs vecs' : List (Components Val)}
    (hlen : ∀ c ∈ vecs, c.components.length = n)
    (h : setComponentInVecs tid idx v vecs = .ok vecs') : idx < n := by
  induction vecs generalizing vecs' with
  | nil => simp [setComponentInVecs] at h
  | cons c rest ih =>
    by_cases htid : c.tid = tid
    · cases hset : c.set idx v with
      | some c' =>
        obtain ⟨hlt, _⟩ := Components.set_eq_some hset
        rw [hlen c (List.mem_cons_self c rest)] at hlt
        exact hlt
      | none => simp [setComponentInVecs, htid, hset] at h
    · cases hrec : setComponentInVecs tid idx v rest with
      | ok rest' => exact ih (fun c hc => hlen c (List.mem_cons_of_mem _ hc)) hrec
      | panic => simp [setComponentInVecs, htid, hrec] at h
      | notFound => simp [setComponentInVecs, htid, hrec] at h

theorem setComponentInVecs_ne_panic_of_lt {Val : Type} {tid idx n : Nat} {v : Val}
    {vecs : List (Components Val)}
    (hlen : ∀ c ∈ vecs, c.components.length = n) (hlt : idx < n) :
    setComponentInVecs tid idx v vecs ≠ .panic := by
  induction vecs with
  | nil => simp [setComponentInVecs]
  | cons c rest ih =>
    by_cases htid : c.tid = tid
    · cases hset : c.set idx v with
      | some c' => simp [setComponentInVecs, htid, hset]
      | none =>
        have : (c.set idx v).isSome := by
          rw [Components.set_isSome, hlen c (List.mem_cons_self c rest)]
          exact hlt
        rw [hset] at this
        simp at this
    · cases hrec : setComponentInVecs tid idx v rest with
      | ok rest' => simp [setComponentInVecs, htid, hrec]
      | panic =>
        exact absurd hrec (ih (fun c hc => hlen c (List.mem_cons_of_mem _ hc)))
      | notFound => simp [setComponentInVecs, htid, hrec]

theorem getComponentFromVecs_none_iff {Val : Type} {tid idx : Nat}
    {vecs : List (Components Val)} :
    getComponentFromVecs tid idx vecs = none ↔ ∀ c ∈ vecs, c.tid ≠ tid := by
  induction vecs with
  | nil => simp [getComponentFromVecs]
  | cons c rest ih =>
    by_cases htid : c.tid = tid
    · simp [getComponentFromVecs, htid]
    · simp [getComponentFromVecs, htid, ih]

theorem getComponentFromVecs_of_setOk {Val : Type} {tid idx : Nat} {v : Val}
    {vecs vecs' : List (Components Val)}
    (h : setComponentInVecs tid idx v vecs = .ok vecs') :
    ∃ data : List (Option Val),
      getComponentFromVecs tid idx vecs' = some ⟨data, idx⟩ ∧
      data[idx]? = some (some v) := by
  induction vecs generalizing vecs' with
  | nil => simp [setComponentInVecs] at h
  | cons c rest ih =>
    by_cases htid : c.tid = tid
    · cases hset : c.set idx v with
      | some c' =>
        simp only [setComponentInVecs, if_pos htid, hset] at h
        cases h
        obtain ⟨hlt, hc'⟩ := Components.set_eq_some hset
        refine ⟨c'.components, ?_, ?_⟩
        · have : c'.tid = tid := by rw [hc']; exact htid
          simp [getComponentFromVecs, this, Components.get]
        · rw [hc']
          exact List.getElem?_set_eq_of_lt (some v) hlt
      | none => simp [setComponentInVecs, htid, hset] at h
    · cases hrec : setComponentInVecs tid idx v rest with
      | ok rest' =>
        simp only [setComponentInVecs, if_neg htid, hrec] at h
        cases h
        obtain ⟨data, h1, h2⟩ := ih hrec
        exact ⟨data, by simp [getComponentFromVecs, htid, h1], h2⟩
      | panic => simp [setComponentInVecs, htid, hrec] at h
      | notFound => simp [setComponentInVecs, htid, hrec] at h

theorem getComponentFromVecs_of_setOk_ne {Val : Type} {tidT tidU idx idx' : Nat} {v : Val}
    (hne : tidU ≠ tidT) {vecs vecs' : List (Components Val)}
    (h : setComponentInVecs tidT idx v vecs = .ok vecs') :
    getComponentFromVecs tidU idx' vecs' = getComponentFromVecs tidU idx' vecs := by
  induction vecs generalizing vecs' with
  | nil => simp [setComponentInVecs] at h
  | cons c rest ih =>
    by_cases htid : c.tid = tidT
    · cases hset : c.set idx v with
      | some c' =>
        simp only [setComponentInVecs, if_pos htid, hset] at h
        cases h
        obtain ⟨_, hc'⟩ := Components.set_eq_some hset
        have hcU : ¬ c.tid = tidU := fun hh => hne (hh.symm.trans htid)
        have hc'U : ¬ c'.tid = tidU := by rw [hc']; exact hcU
        simp [getComponentFromVecs, hcU, hc'U]
      | none => simp [setComponentInVecs, htid, hset] at h
    · cases hrec : setComponentInVecs tidT idx v rest with
      | ok rest' =>
        simp only [setComponentInVecs, if_neg htid, hrec] at h
        cases h
        by_cases hcU : c.tid = tidU <;> simp [getComponentFromVecs, hcU, ih hrec]
      | panic => simp [setComponentInVecs, htid, hrec] at h
      | notFound => simp [setComponentInVecs, htid, hrec] at h

theorem getComponentFromVecs_mem {Val : Type} {tid idx : Nat}
    {vecs : List (Components Val)} {r : RefComponent Val}
    (h : getComponentFromVecs tid idx vecs = some r) :
    ∃ c ∈ vecs, c.tid = tid ∧ r = c.get idx := by
  induction vecs with
  | nil => simp [getComponentFromVecs] at h
  | cons c rest ih =>
    by_cases htid : c.tid = tid
    · simp only [getComponentFromVecs, if_pos htid] at h
      exact ⟨c, List.mem_cons_self c rest, htid, (Option.some.inj h).symm⟩
    · simp only [getComponentFromVecs, if_neg htid] at h
      obtain ⟨c', hc', ht, hr⟩ := ih h
      exact ⟨c', List.mem_cons_of_mem _ hc', ht, hr⟩

theorem getComponentMutFromVecs_mem {Val : Type} {tid idx : Nat}
    {vecs : List (Components Val)} {m : RefMutComponent Val}
    (h : getComponentMutFromVecs tid idx vecs = some m) :
    ∃ c ∈ vecs, c.tid = tid ∧ m = c.get_mut idx := by
  induction vecs with
  | nil => simp [getComponentMutFromVecs] at h
  | cons c rest ih =>
    by_cases htid : c.tid = tid
    · simp only [getComponentMutFromVecs, if_pos htid] at h
      exact ⟨c, List.mem_cons_self c rest, htid, (Option.some.inj h).symm⟩
    · simp only [getComponentMutFromVecs, if_neg htid] at h
      obtain ⟨c', hc', ht, hr⟩ := ih h
      exact ⟨c', List.mem_cons_of_mem _ hc', ht, hr⟩

theorem getComponentFromVecs_append_of_none {Val : Type} {tid idx : Nat}
    {l₁ l₂ : List (Components Val)} (h : getComponentFromVecs tid idx l₁ = none) :
    getComponentFromVecs tid idx (l₁ ++ l₂) = getComponentFromVecs tid idx l₂ := by
  induction l₁ with
  | nil => rfl
  | cons c rest ih =>
    by_cases htid : c.tid = tid
    · simp [getComponentFromVecs, htid] at h
    · simp only [getComponentFromVecs, if_neg htid] at h
      simp only [List.cons_append, getComponentFromVecs, if_neg htid]
      exact ih h

theorem getComponentFromVecs_append_single_ne {Val : Type} {tid idx : Nat}
    {c : Components Val} (hne : c.tid ≠ tid) (l : List (Components Val)) :
    getComponentFromVecs tid idx (l ++ [c]) = getComponentFromVecs tid idx l := by
  induction l with
  | nil => simp [getComponentFromVecs, hne]
  | cons c₀ rest ih =>
    by_cases htid : c₀.tid = tid <;>
      simp [getComponentFromVecs, htid, ih]

theorem getComponentFromVecs_of_mem_nodup {Val : Type} {tid idx : Nat}
    {vecs : List (Components Val)}
    (hnd : (vecs.map Components.tid).Nodup) {c : Components Val}
    (hc : c ∈ vecs) (ht : c.tid = tid) :
    getComponentFromVecs tid idx vecs = some (c.get idx) := by
  induction vecs with
  | nil => simp at hc
  | cons c₀ rest ih =>
    rcases List.mem_cons.mp hc with h | h
    · subst h
      simp [getComponentFromVecs, ht]
    · by_cases htid : c₀.tid = tid
      · exfalso
        have : c.tid ∈ rest.map Components.tid := List.mem_map_of_mem Components.tid h
        rw [ht, ← htid] at this
        exact (List.nodup_cons.mp (by simpa using hnd)).1 this
      · simp only [getComponentFromVecs, if_neg htid]
        exact ih (List.nodup_cons.mp (by simpa using hnd)).2 h

/-! ### Behavior of `add_component_to_entity` -/

theorem add_writes {Val : Type} {w w' : World Val} {tid : Nat} {e : Entity} {v : Val}
    (hadd : w.add_component_to_entity tid e v = some w') :
    w'.entities = w.entities ∧ w'.entities_count = w.entities_count ∧
    w'.free_entities = w.free_entities ∧
    ∃ data : List (Option Val),
      getComponentFromVecs tid e.id w'.component_vecs = some ⟨data, e.id⟩ ∧
      data[e.id]? = some (some v) := by
  unfold World.add_component_to_entity at hadd
  cases hset : setComponentInVecs tid e.id v w.component_vecs with
  | ok vecs =>
    rw [hset] at hadd
    cases hadd
    exact ⟨rfl, rfl, rfl, getComponentFromVecs_of_setOk hset⟩
  | panic => rw [hset] at hadd; simp at hadd
  | notFound =>
    rw [hset] at hadd
    cases hnew : (Components.new tid w.entities_count : Components Val).set e.id v with
    | some c =>
      rw [hnew] at hadd
      cases hadd
      obtain ⟨hlt, hc⟩ := Components.set_eq_some hnew
      simp only [Components.new, List.length_replicate] at hlt
      refine ⟨rfl, rfl, rfl, c.components, ?_, ?_⟩
      · have hnone : getComponentFromVecs tid e.id w.component_vecs = none :=
          getComponentFromVecs_none_iff.mpr (setComponentInVecs_notFound_iff.mp hset)
        have hctid : c.tid = tid := by rw [hc]; rfl
        calc getComponentFromVecs tid e.id (w.component_vecs ++ [c])
            = getComponentFromVecs tid e.id [c] :=
              getComponentFromVecs_append_of_none hnone
          _ = some (c.get e.id) := by simp [getComponentFromVecs, hctid]
          _ = some ⟨c.components, e.id⟩ := rfl
      · rw [hc]
        simp only [Components.new]
        exact List.getElem?_set_eq_of_lt (some v) (by simpa using hlt)
    | none => rw [hnew] at hadd; simp at hadd

theorem add_isSome_iff {Val : Type} {w : World Val} {tid : Nat} {e : Entity} {v : Val}
    (hlen : ∀ c ∈ w.component_vecs, c.components.length = w.entities_count) :
    (w.add_component_to_entity tid e v).isSome ↔ e.id < w.entities_count := by
  unfold World.add_component_to_entity
  cases hset : setComponentInVecs tid e.id v w.component_vecs with
  | ok vecs =>
    simp only [Option.isSome_some, true_iff]
    exact setComponentInVecs_ok_lt hlen hset
  | panic =>
    simp only [Option.isSome_none, Bool.false_eq_true, false_iff, not_lt]
    rcases Nat.lt_or_ge e.id w.entities_count with hlt2 | hge
    · exact absurd hset (setComponentInVecs_ne_panic_of_lt hlen hlt2)
    · exact hge
  | notFound =>
    cases hnew : (Components.new tid w.entities_count : Components Val).set e.id v with
    | some c =>
      simp only [hnew, Option.isSome_some, true_iff]
      have h2 : ((Components.new tid w.entities_count : Components Val).set e.id v).isSome := by
        rw [hnew]
        rfl
      simpa [Components.new] using Components.set_isSome.mp h2
    | none =>
      simp only [hnew, Option.isSome_none, Bool.false_eq_true, false_iff, not_lt]
      rcases Nat.lt_or_ge e.id w.entities_count with hlt2 | hge
      · exfalso
        have h2 : ((Components.new tid w.entities_count : Components Val).set e.id v).isSome := by
          rw [Components.set_isSome]
          simpa [Components.new] using hlt2
        rw [hnew] at h2
        simp at h2
      · exact hge

/-! ### Preservation of the state invariant -/

theorem inv_init {Val : Type} : Inv (World.new Val) := by
  refine ⟨rfl, ?_, rfl, ?_⟩ <;> simp [World.new]

theorem inv_new_entity {Val : Type} {w : World Val} (h : Inv w) : Inv (w.new_entity).2 := by
  obtain ⟨hcnt, hcols, hfree, hnd⟩ := h
  unfold World.new_entity
  rw [hfree]
  simp only [vecPop, List.getLast?_nil]
  refine ⟨?_, ?_, rfl, ?_⟩
  · simp [hcnt]
  · intro c hc
    simp only [List.mem_map] at hc
    obtain ⟨c₀, hc₀, rfl⟩ := hc
    simp [hcols c₀ hc₀]
  · simpa using hnd

theorem inv_add {Val : Type} {w w' : World Val} {tid : Nat} {e : Entity} {v : Val}
    (h : Inv w) (hadd : w.add_component_to_entity tid e v = some w') : Inv w' := by
  obtain ⟨hcnt, hcols, hfree, hnd⟩ := h
  unfold World.add_component_to_entity at hadd
  cases hset : setComponentInVecs tid e.id v w.component_vecs with
  | ok vecs =>
    rw [hset] at hadd
    cases hadd
    obtain ⟨htids, hlens⟩ := setComponentInVecs_ok_shape hset
    refine ⟨hcnt, ?_, hfree, by simpa [htids] using hnd⟩
    intro c hc
    have : c.components.length ∈ vecs.map (fun c => c.components.length) :=
      List.mem_map_of_mem _ hc
    rw [hlens] at this
    obtain ⟨c₀, hc₀, hlen₀⟩ := List.mem_map.mp this
    rw [← hlen₀]
    exact hcols c₀ hc₀
  | panic => rw [hset] at hadd; simp at hadd
  | notFound =>
    rw [hset] at hadd
    cases hnew : (Components.new tid w.entities_count : Components Val).set e.id v with
    | some c =>
      rw [hnew] at hadd
      cases hadd
      obtain ⟨hlt, hc⟩ := Components.set_eq_some hnew
      refine ⟨hcnt, ?_, hfree, ?_⟩
      · intro c' hc'
        rcases List.mem_append.mp hc' with hmem | hmem
        · exact hcols c' hmem
        · rw [List.mem_singleton.mp hmem, hc]
          simp [Components.new]
      · have hctid : c.tid = tid := by rw [hc]; rfl
        have hnotin : tid ∉ w.component_vecs.map Components.tid := by
          intro hmem
          obtain ⟨c₀, hc₀, ht₀⟩ := List.mem_map.mp hmem
          exact setComponentInVecs_notFound_iff.mp hset c₀ hc₀ ht₀
        simp only [List.map_append, List.map_cons, List.map_nil, hctid]
        rw [List.nodup_append]
        exact ⟨hnd, List.nodup_singleton tid,
          by simpa [List.disjoint_singleton] using hnotin⟩
    | none => rw [hnew] at hadd; simp at hadd

theorem reachable_inv {Val : Type} {w : World Val} (h : Reachable w) : Inv w := by
  induction h with
  | init => exact inv_init
  | create _ ih => exact inv_new_entity ih
  | attach _ hadd ih => exact inv_add ih hadd

/-! ### The example scenario is reachable -/

theorem exampleWorld_reachable : Reachable exampleWorld := by
  have h1 : Reachable (World.new Int) := Reachable.init
  have h2 : Reachable wB := Reachable.create h1
  have h3 : Reachable wC := Reachable.attach h2 (show wB.add_component_to_entity 0 ⟨0, 0⟩ 10 = some wC from rfl)
  have h4 : Reachable wD := Reachable.create h3
  have h5 : Reachable wE := Reachable.attach h4 (show wD.add_component_to_entity 0 ⟨1, 0⟩ 20 = some wE from rfl)
  exact Reachable.attach h5 (show wE.add_component_to_entity 1 ⟨1, 0⟩ 100 = some exampleWorld from rfl)

/-! ### The claims -/

/-- C1: Round-trip — attaching value `v` of type `tid` to an entity `e` that
is exactly present and current in the slot table, then reading type `tid` on
`e` with no intervening operation, yields an accessor dereferencing to
`some v`. -/
theorem round_trip {Val : Type} (w : World Val) (tid : Nat) (e : Entity) (v : Val)
    (w' : World Val) (hvalid : w.entities[e.id]? = some e)
    (hadd : w.add_component_to_entity tid e v = some w') :
    ∃ r : RefComponent Val, w'.get_component tid e = some r ∧
      RefComponent.deref r = some (some v) := by
  obtain ⟨hent, _, _, data, hget, hdata⟩ := add_writes hadd
  refine ⟨⟨data, e.id⟩, ?_, hdata⟩
  unfold World.get_component
  rw [hent, hvalid]
  simp [hget]

/-- Witness for C1: attach `30` at type tag 0 to the valid entity `(0,0)` of
the example world and read it back. -/
theorem round_trip_witness :
    ∃ r : RefComponent Int,
      World.get_component
        ({ entities_count := 2,
           component_vecs :=
             [{ tid := 0, components := [some 30, some 20] },
              { tid := 1, components := [none, some 100] }],
           entities := [⟨0, 0⟩, ⟨1, 0⟩], free_entities := [] } : World Int) 0 ⟨0, 0⟩
        = some r ∧
      RefComponent.deref r = some (some 30) :=
  round_trip exampleWorld 0 ⟨0, 0⟩ 30 _ rfl rfl

/-- C2: immediately after every `create_entity` call on a reachable world,
the length of every registered column equals `entities_count`, and
`entities_count` equals the slot-table length. -/
theorem slot_column_lengths {Val : Type} (w : World Val) (hw : Reachable w) :
    (∀ c ∈ (w.new_entity).2.component_vecs,
        c.components.length = (w.new_entity).2.entities_count) ∧
    (w.new_entity).2.entities_count = (w.new_entity).2.entities.length := by
  obtain ⟨hcnt, hcols, _, _⟩ := reachable_inv (Reachable.create hw)
  exact ⟨hcols, hcnt.symm⟩

/-- Witness for C2 on the example world: the extended Health column has the
new length, which equals the new slot-table length. -/
theorem slot_column_lengths_witness :
    ({ tid := 0, components := [some 10, some 20, none] } : Components Int).components.length
        = (exampleWorld.new_entity).2.entities_count ∧
    (exampleWorld.new_entity).2.entities_count
        = (exampleWorld.new_entity).2.entities.length :=
  ⟨(slot_column_lengths exampleWorld exampleWorld_reachable).1 _ (by decide),
   (slot_column_lengths exampleWorld exampleWorld_reachable).2⟩

/-- C3: an invalid handle — index beyond the slot table, or a slot entry
differing from the handle in index or generation — is rejected by both
`get_component` and `get_component_mut`, which return `none`; in the
embedding both reads are pure functions of the registry, so the registry is
unchanged. -/
theorem invalid_handle_rejected {Val : Type} (w : World Val) (tid : Nat) (e : Entity)
    (hinv : w.entities.length ≤ e.id ∨
      ∃ ent, w.entities[e.id]? = some ent ∧ ent ≠ e) :
    w.get_component tid e = none ∧ w.get_component_mut tid e = none := by
  cases hget : w.entities[e.id]? with
  | none =>
    constructor <;> simp [World.get_component, World.get_component_mut, hget]
  | some ent =>
    have hne : ent ≠ e := by
      rcases hinv with hlen | ⟨ent', hent', hne'⟩
      · exfalso
        have := (List.getElem?_eq_some.mp hget).1
        omega
      · rw [hget] at hent'
        rw [Option.some.inj hent']
        exact hne'
    constructor <;> simp [World.get_component, World.get_component_mut, hget, hne]

/-- Witness for C3: the stale handle `(0,9)` (the slot holds `(0,0)`) is
rejected by both reads on the example world. -/
theorem invalid_handle_rejected_witness :
    exampleWorld.get_component 0 ⟨0, 9⟩ = none ∧
    exampleWorld.get_component_mut 0 ⟨0, 9⟩ = none :=
  invalid_handle_rejected exampleWorld 0 ⟨0, 9⟩ (Or.inr ⟨⟨0, 0⟩, rfl, by decide⟩)

/-- C4 as stated is false on the code: in the example world the Speed column
(tag 1) exists because Speed was attached to `e2 = (1,0)`, and reading Speed
on the valid entity `e1 = (0,0)` — which carries no Speed — returns an
accessor into the empty slot rather than no accessor. -/
theorem absent_component_counterexample :
    exampleWorld.get_component 1 ⟨0, 0⟩ ≠ none := by
  decide

/-- C4 amended: for a valid entity `e` carrying no component of type `tid`,
`get_component` returns `none` when no column for `tid` exists, and when a
column for `tid` exists (because the type was attached to another entity) it
returns an accessor that dereferences to the empty slot value `none`. -/
theorem absent_component_amended {Val : Type} (w : World Val) (tid : Nat) (e : Entity)
    (hw : Reachable w) (hvalid : w.entities[e.id]? = some e) :
    ((∀ c ∈ w.component_vecs, c.tid ≠ tid) → w.get_component tid e = none) ∧
    (∀ c ∈ w.component_vecs, c.tid = tid → c.components[e.id]? = some none →
      ∃ r, w.get_component tid e = some r ∧ RefComponent.deref r = some none) := by
  have hent : w.get_component tid e
      = getComponentFromVecs tid e.id w.component_vecs := by
    unfold World.get_component
    rw [hvalid]
    simp
  constructor
  · intro habs
    rw [hent]
    exact getComponentFromVecs_none_iff.mpr habs
  · intro c hc htid hempty
    obtain ⟨_, _, _, hnd⟩ := reachable_inv hw
    refine ⟨c.get e.id, ?_, hempty⟩
    rw [hent]
    exact getComponentFromVecs_of_mem_nodup hnd hc htid

/-- Witness for C4 amended: reading Speed (tag 1) on `e1 = (0,0)` in the
example world yields an accessor whose dereference is the empty slot. -/
theorem absent_component_amended_witness :
    ∃ r, exampleWorld.get_component 1 ⟨0, 0⟩ = some r ∧
      RefComponent.deref r = some none :=
  (absent_component_amended exampleWorld 1 ⟨0, 0⟩ exampleWorld_reachable rfl).2
    { tid := 1, components := [none, some 100] } (by decide) rfl rfl

/-- C5: `add_component_to_entity` never consults the slot table: on a
reachable world it succeeds exactly when `e.id < entities_count` — in
particular a stale generation is accepted — and on success the column for
`tid` holds `some v` at `e.id`; it faults (index out of bounds) exactly when
`e.id ≥ entities_count`. -/
theorem attach_skips_validation {Val : Type} (w : World Val) (tid : Nat) (e : Entity)
    (v : Val) (hw : Reachable w) :
    ((w.add_component_to_entity tid e v).isSome ↔ e.id < w.entities_count) ∧
    ∀ w', w.add_component_to_entity tid e v = some w' →
      ∃ data : List (Option Val),
        getComponentFromVecs tid e.id w'.component_vecs = some ⟨data, e.id⟩ ∧
        data[e.id]? = some (some v) := by
  obtain ⟨_, hcols, _, _⟩ := reachable_inv hw
  exact ⟨add_isSome_iff hcols, fun w' h => (add_writes h).2.2.2⟩

/-- Witness for C5: the stale handle `(0,7)` (slot 0 holds generation 0)
still writes `55` into the Speed column at index 0. -/
theorem attach_skips_validation_witness :
    (exampleWorld.add_component_to_entity 1 ⟨0, 7⟩ 55).isSome ∧
    ∃ data : List (Option Int),
      getComponentFromVecs 1 0
        ({ entities_count := 2,
           component_vecs :=
             [{ tid := 0, components := [some 10, some 20] },
              { tid := 1, components := [some 55, some 100] }],
           entities := [⟨0, 0⟩, ⟨1, 0⟩], free_entities := [] } : World Int).component_vecs
        = some ⟨data, 0⟩ ∧
      data[0]? = some (some 55) :=
  ⟨(attach_skips_validation exampleWorld 1 ⟨0, 7⟩ 55 exampleWorld_reachable).1.mpr
      (by decide),
   (attach_skips_validation exampleWorld 1 ⟨0, 7⟩ 55 exampleWorld_reachable).2 _ rfl⟩

/-- C6: on every reachable world the free list is empty — no public
operation populates it — so `create_entity` always takes the
fresh-allocation path: it returns `Entity (entities_count, 0)`, increments
`entities_count`, appends that entity to the slot table, and appends one
empty slot to every existing column. -/
theorem create_entity_allocation {Val : Type} (w : World Val) (hw : Reachable w) :
    w.free_entities = [] ∧
    (w.new_entity).1 = ⟨w.entities_count, 0⟩ ∧
    (w.new_entity).2.entities_count = w.entities_count + 1 ∧
    (w.new_entity).2.entities = w.entities ++ [⟨w.entities_count, 0⟩] ∧
    (w.new_entity).2.component_vecs =
      w.component_vecs.map (fun c => { c with components := c.components ++ [none] }) := by
  obtain ⟨_, _, hfree, _⟩ := reachable_inv hw
  refine ⟨hfree, ?_, ?_, ?_, ?_⟩ <;>
    simp [World.new_entity, vecPop, hfree]

/-- Witness for C6 on the example world. -/
theorem create_entity_allocation_witness :
    exampleWorld.free_entities = [] ∧
    (exampleWorld.new_entity).1 = ⟨2, 0⟩ ∧
    (exampleWorld.new_entity).2.entities_count = 3 ∧
    (exampleWorld.new_entity).2.entities = [⟨0, 0⟩, ⟨1, 0⟩] ++ [⟨2, 0⟩] ∧
    (exampleWorld.new_entity).2.component_vecs =
      exampleWorld.component_vecs.map
        (fun c => { c with components := c.components ++ [none] }) :=
  create_entity_allocation exampleWorld exampleWorld_reachable

/-- C7: in every reachable world, no two columns share a component type:
the type tags of the registered columns are pairwise distinct. -/
theorem column_per_type_unique {Val : Type} (w : World Val) (hw : Reachable w) :
    (w.component_vecs.map Components.tid).Nodup :=
  (reachable_inv hw).2.2.2

/-- Witness for C7: the example world holds exactly the two columns with
distinct tags 0 (Health) and 1 (Speed). -/
theorem column_per_type_unique_witness :
    (exampleWorld.component_vecs.map Components.tid).Nodup :=
  column_per_type_unique exampleWorld exampleWorld_reachable

/-- C8: while the cell of a column is exclusively borrowed (an accessor from
`get_component_mut` is alive), obtaining any further accessor — shared or
exclusive — panics; while only shared accessors are alive another shared
accessor always succeeds, stacking readers without bound; and an exclusive
borrow of an unborrowed cell succeeds and marks it writing. -/
theorem accessor_exclusivity {Val : Type} (c : ComponentsCell Val) (idx : Nat) :
    (c.flag = .writing → c.borrow idx = none ∧ c.borrow_mut idx = none) ∧
    (∀ n, c.flag = .reading n →
      ∃ r c', c.borrow idx = some (r, c') ∧ c'.flag = .reading (n + 1)) ∧
    (c.flag = .unused →
      ∃ m c', c.borrow_mut idx = some (m, c') ∧ c'.flag = .writing) := by
  refine ⟨?_, ?_, ?_⟩
  · intro h
    constructor <;> simp [ComponentsCell.borrow, ComponentsCell.borrow_mut, h]
  · intro n h
    exact ⟨c.cell.get idx, { c with flag := .reading (n + 1) },
      by simp [ComponentsCell.borrow, h], rfl⟩
  · intro h
    exact ⟨c.cell.get_mut idx, { c with flag := .writing },
      by simp [ComponentsCell.borrow_mut, h], rfl⟩

/-- Witness for C8: on an exclusively borrowed cell, both a shared and an
exclusive borrow attempt panic. -/
theorem accessor_exclusivity_witness :
    ComponentsCell.borrow
      ({ cell := { tid := 0, components := [none] }, flag := .writing } : ComponentsCell Int)
      0 = none ∧
    ComponentsCell.borrow_mut
      ({ cell := { tid := 0, components := [none] }, flag := .writing } : ComponentsCell Int)
      0 = none :=
  (accessor_exclusivity
    { cell := { tid := 0, components := [none] }, flag := .writing } 0).1 rfl

/-- C9: attaching a component of type `tidT` to any entity never changes the
result of a `get_component` query at a different type `tidU`, on any
entity. -/
theorem type_isolation {Val : Type} (w w' : World Val) (tidT tidU : Nat) (e e' : Entity)
    (v : Val) (hne : tidU ≠ tidT)
    (hadd : w.add_component_to_entity tidT e v = some w') :
    w'.get_component tidU e' = w.get_component tidU e' := by
  have hvecs : getComponentFromVecs tidU e'.id w'.component_vecs
      = getComponentFromVecs tidU e'.id w.component_vecs := by
    unfold World.add_component_to_entity at hadd
    cases hset : setComponentInVecs tidT e.id v w.component_vecs with
    | ok vecs =>
      rw [hset] at hadd
      cases hadd
      exact getComponentFromVecs_of_setOk_ne hne hset
    | panic => rw [hset] at hadd; simp at hadd
    | notFound =>
      rw [hset] at hadd
      cases hnew : (Components.new tidT w.entities_count : Components Val).set e.id v with
      | some c =>
        rw [hnew] at hadd
        cases hadd
        obtain ⟨_, hc⟩ := Components.set_eq_some hnew
        have hct : c.tid = tidT := by rw [hc]; rfl
        exact getComponentFromVecs_append_single_ne
          (fun hh => hne ((hct ▸ hh : tidT = tidU)).symm) w.component_vecs
      | none => rw [hnew] at hadd; simp at hadd
  have hents : w'.entities = w.entities := (add_writes hadd).1
  unfold World.get_component
  rw [hents, hvecs]

/-- Witness for C9: attaching a tag-5 component to `e2` leaves the Health
query on `e1` unchanged. -/
theorem type_isolation_witness :
    World.get_component
      ({ entities_count := 2,
         component_vecs :=
           [{ tid := 0, components := [some 10, some 20] },
            { tid := 1, components := [none, some 100] },
            { tid := 5, components := [none, some 9] }],
         entities := [⟨0, 0⟩, ⟨1, 0⟩], free_entities := [] } : World Int) 0 ⟨0, 0⟩
      = exampleWorld.get_component 0 ⟨0, 0⟩ :=
  type_isolation exampleWorld _ 5 0 ⟨1, 0⟩ ⟨0, 0⟩ 9 (by decide) rfl

/-- C10: every accessor issued by `get_component` or `get_component_mut` on
a reachable world dereferences without fault: the index lookup inside
`deref` and `deref_mut` always finds an element. -/
theorem accessor_deref_total {Val : Type} (w : World Val) (tid : Nat) (e : Entity)
    (hw : Reachable w) :
    (∀ r, w.get_component tid e = some r → (RefComponent.deref r).isSome) ∧
    (∀ m, w.get_component_mut tid e = some m →
      (RefMutComponent.deref m).isSome ∧ (RefMutComponent.deref_mut m).isSome) := by
  obtain ⟨hcnt, hcols, _, _⟩ := reachable_inv hw
  constructor
  · intro r hr
    unfold World.get_component at hr
    cases hget : w.entities[e.id]? with
    | none => rw [hget] at hr; simp at hr
    | some ent =>
      rw [hget] at hr
      by_cases heq : ent = e
      · simp only [if_pos heq] at hr
        obtain ⟨c, hc, _, hrc⟩ := getComponentFromVecs_mem hr
        rw [hrc]
        have hlt : e.id < c.components.length := by
          rw [hcols c hc, ← hcnt]
          exact (List.getElem?_eq_some.mp hget).1
        simp [RefComponent.deref, Components.get, List.getElem?_eq_getElem, hlt]
      · simp only [if_neg heq] at hr
        simp at hr
  · intro m hm
    unfold World.get_component_mut at hm
    cases hget : w.entities[e.id]? with
    | none => rw [hget] at hm; simp at hm
    | some ent =>
      rw [hget] at hm
      by_cases heq : ent = e
      · simp only [if_pos heq] at hm
        obtain ⟨c, hc, _, hmc⟩ := getComponentMutFromVecs_mem hm
        rw [hmc]
        have hlt : e.id < c.components.length := by
          rw [hcols c hc, ← hcnt]
          exact (List.getElem?_eq_some.mp hget).1
        constructor <;>
          simp [RefMutComponent.deref, RefMutComponent.deref_mut, Components.get_mut,
            List.getElem?_eq_getElem, hlt]
      · simp only [if_neg heq] at hm
        simp at hm

/-- Witness for C10: the accessors for Health (tag 0) on `e1` in the example
world dereference to a present element. -/
theorem accessor_deref_total_witness :
    (RefComponent.deref ({ refer := [some 10, some 20], idx := 0 } : RefComponent Int)).isSome
      ∧
    (RefMutComponent.deref
      ({ r := [some 10, some 20], idx := 0 } : RefMutComponent Int)).isSome ∧
    (RefMutComponent.deref_mut
      ({ r := [some 10, some 20], idx := 0 } : RefMutComponent Int)).isSome :=
  ⟨(accessor_deref_total exampleWorld 0 ⟨0, 0⟩ exampleWorld_reachable).1 _ rfl,
   ((accessor_deref_total exampleWorld 0 ⟨0, 0⟩ exampleWorld_reachable).2 _ rfl).1,
   ((accessor_deref_total exampleWorld 0 ⟨0, 0⟩ exampleWorld_reachable).2 _ rfl).2⟩

end SimpleEsc
